import Mathlib

/-!
Shallow embedding of the JOB_PARSER kanban board state manager
(`src/components/KanbanBoard/KanbanBoard.tsx`, the evolved revision that the
specification describes) and of the local identity scheme
(`src/components/NewJobModal/NewJobModal.tsx`), together with theorems that
settle the specification claims about them.

JavaScript runtime conventions used throughout the embedding:
* a possibly-`undefined` string field is an `Option String` (`none` models
  `undefined`), and the sheet row `_row` is an `Option Nat`;
* JS truthiness on such values: `undefined` and `""` (respectively `0`) are
  falsy, everything else is truthy;
* `Array.prototype` operations (`filter`, `findIndex`, `find`, `splice`,
  `unshift`, spread copies, `map`) are modelled by the corresponding pure
  list operations, with `splice` index clamping spelled out explicitly;
* the asynchronous fire-and-forget Google-Sheets requests are modelled as an
  explicit list of dispatched `Effect`s returned next to the new state;
* string builtins (`toLowerCase`, `toUpperCase`, `trim`, `includes`) are
  modelled directly on the character list of the string; the source only
  applies them to ASCII board data, on which the models below agree with the
  ECMAScript functions.
-/

namespace JobParser

/-- JS `String.prototype.toLowerCase` on one character (ASCII range). -/
def lowerChar (c : Char) : Char :=
  if 'A' ≤ c ∧ c ≤ 'Z' then Char.ofNat (c.toNat + 32) else c

/-- JS `String.prototype.toUpperCase` on one character (ASCII range). -/
def upperChar (c : Char) : Char :=
  if 'a' ≤ c ∧ c ≤ 'z' then Char.ofNat (c.toNat - 32) else c

/-- JS `toLowerCase` on a string. -/
def jsLower (s : String) : String := ⟨s.data.map lowerChar⟩

/-- JS `toUpperCase` on a string. -/
def jsUpper (s : String) : String := ⟨s.data.map upperChar⟩

/-- Characters stripped by JS `String.prototype.trim` (the WhiteSpace and
LineTerminator sets; the board data only ever carries the ASCII ones). -/
def isJsSpace (c : Char) : Bool :=
  c = ' ' ∨ c = '\t' ∨ c = '\n' ∨ c = '\r' ∨ c = '\x0b' ∨ c = '\x0c' ∨
    c = ' ' ∨ c = '﻿'

/-- JS `String.prototype.trim`. -/
def jsTrim (s : String) : String :=
  ⟨((s.data.dropWhile isJsSpace).reverse.dropWhile isJsSpace).reverse⟩

/-- Header normalisation `s.replace(/^﻿/, '')`: strip one leading
byte-order marker. -/
def stripBom (s : String) : String :=
  match s.data with
  | c :: rest => if c = '﻿' then ⟨rest⟩ else s
  | [] => s

/-- JS `String.prototype.includes` (substring test), on character lists. -/
def listContains (hay needle : List Char) : Bool :=
  needle.isPrefixOf hay ||
    match hay with
    | [] => false
    | _ :: t => listContains t needle

/-- JS `String.prototype.includes` on strings. -/
def jsIncludes (hay needle : String) : Bool := listContains hay.data needle.data

/-- Truthiness of a possibly-`undefined` JS string (`undefined` and `""` are
falsy). -/
def truthyStr : Option String → Bool
  | none => false
  | some s => s ≠ ""

/-- Truthiness of the possibly-`undefined` numeric `_row` field (`undefined`
and `0` are falsy). -/
def truthyRow : Option Nat → Bool
  | none => false
  | some r => r ≠ 0

/-- The `Job` record of `KanbanBoard.tsx`. Every field that TypeScript marks
optional — and also `ID`/`Title`, which ingestion only fills when the sheet
provides the matching header — is an `Option String` at runtime. `_row` is
the 1-based sheet row including the header offset. -/
structure Job where
  ID : Option String := none
  Title : Option String := none
  Description : Option String := none
  Company : Option String := none
  Location : Option String := none
  Link : Option String := none
  Date : Option String := none
  Status : Option String := none
  Notes : Option String := none
  interviewDate : Option String := none
  Contacts : Option String := none
  Tag : Option String := none
  _row : Option Nat := none
deriving DecidableEq, Repr

/-- One board column: its name and its ordered job list. The `icon` field of
the source column objects is render-only data (a React node derived from the
name) and carries no board-state information, so it is omitted. -/
structure Column where
  name : String
  jobs : List Job
deriving DecidableEq, Repr

/-- Placeholder used for out-of-range list reads; the operations below only
ever read indices their guards have established to be in range. -/
def dummyJob : Job := {}

/-- Placeholder column for out-of-range list reads. -/
def dummyColumn : Column := { name := "", jobs := [] }

/-- `COLUMN_NAMES`: the seven fixed stages, in order. -/
def COLUMN_NAMES : List String :=
  ["NEW", "CV SENT", "FOLLOWED UP", "INTERVIEW", "REFUSAL", "OFFER", "ARCHIVE"]

/-- The initial board: every stage present, every job list empty. -/
def initialColumns : List Column := COLUMN_NAMES.map (fun n => ⟨n, []⟩)

/-- A remote write dispatched to the Sheets web app. The only remote call the
move operations make is the status update of `updateStatusInSheets`. -/
inductive Effect where
  | setStatus (row : Nat) (status : String)
deriving DecidableEq, Repr

/-- `updateStatusInSheets(job, newStatus)`: returns early when `job._row` is
falsy, otherwise issues one status-update request for that row. -/
def updateStatusInSheets (job : Job) (newStatus : String) : List Effect :=
  if truthyRow job._row then [Effect.setStatus (job._row.getD 0) newStatus] else []

/-- `upsertLocalJob(job)`: prune `job.ID` from every column, then insert the
job at the front of the column matching `job.Status || 'NEW'`. When no column
carries that name the updater returns `prev` — the original state, not the
pruned one. -/
def upsertLocalJob (cols : List Column) (job : Job) : List Column :=
  let pruned := cols.map fun c => { c with jobs := c.jobs.filter fun j => j.ID ≠ job.ID }
  let statusKey := match job.Status with
    | some s => if s = "" then "NEW" else s
    | none => "NEW"
  match pruned.findIdx? (fun c => c.name = statusKey) with
  | none => cols
  | some idx =>
      let c := pruned.getD idx dummyColumn
      pruned.set idx { c with jobs := job :: c.jobs }

/-- `removeLocalJob(jobId)`: drop the records with that id from every column. -/
def removeLocalJob (cols : List Column) (jobId : String) : List Column :=
  cols.map fun c => { c with jobs := c.jobs.filter fun j => j.ID ≠ some jobId }

/-- The state updater inside `moveJobToStatus` (the `setColumns` callback):
locate the column holding `jobId` and the column named `targetStatus`, splice
the record out of the former, stamp the new status on it, and `unshift` it
onto the latter. The two `next[...]` array writes happen in source order, so
when both indices coincide the `toList` write — computed from the original
`prev[toColIdx].jobs`, which still holds the record — wins. -/
def moveUpdater (cols : List Column) (jobId : Option String)
    (targetStatus : String) : List Column :=
  match cols.findIdx? (fun c => c.jobs.any fun j => j.ID = jobId) with
  | none => cols
  | some fromColIdx =>
    match cols.findIdx? (fun c => c.name = targetStatus) with
    | none => cols
    | some toColIdx =>
      let fromList := (cols.getD fromColIdx dummyColumn).jobs
      match fromList.findIdx? (fun j => j.ID = jobId) with
      | none => cols
      | some idx =>
        let moved := fromList.getD idx dummyJob
        let fromListAfter := fromList.eraseIdx idx
        let toList := (cols.getD toColIdx dummyColumn).jobs
        let updated := { moved with Status := some targetStatus }
        let cols1 := cols.set fromColIdx
          { (cols.getD fromColIdx dummyColumn) with jobs := fromListAfter }
        cols1.set toColIdx
          { (cols1.getD toColIdx dummyColumn) with jobs := updated :: toList }

/-- `moveJobToStatus(jobId, targetStatus)`: early return when the target
equals the current focus column; otherwise apply the state updater, then —
from the `columnsRef` snapshot, which still holds the pre-move state — look
the record up again and either dispatch the remote status update (truthy
`_row`) or run the local upsert cycle on the just-updated state. -/
def moveJobToStatus (cols : List Column) (focusColumn : String)
    (jobId : Option String) (targetStatus : String) : List Column × List Effect :=
  if targetStatus = focusColumn then (cols, [])
  else
    let cols1 := moveUpdater cols jobId targetStatus
    let all := (cols.map Column.jobs).flatten
    match all.find? (fun j => j.ID = jobId) with
    | none => (cols1, [])
    | some movedJob =>
      let updatedObj := { movedJob with Status := some targetStatus }
      if truthyRow updatedObj._row then
        (cols1, updateStatusInSheets updatedObj targetStatus)
      else
        (upsertLocalJob cols1 updatedObj, [])

/-- `moveBetweenColumns(fromCol, toCol, toIndexRaw, jobId)`: copy the source
and target job arrays from the `columnsRef` snapshot, splice the record out
of the source copy, stamp the destination column's name as its status,
splice it into the target copy at `toIndexRaw` clamped to
`[0, targetList.length]`, write both columns back (target write second, so
it wins when the indices coincide), and finally either dispatch the remote
status update (truthy `_row`) or run the local upsert cycle. -/
def moveBetweenColumns (cols : List Column) (fromCol toCol : Nat)
    (toIndexRaw : Int) (jobId : Option String) : List Column × List Effect :=
  let sourceList := (cols.getD fromCol dummyColumn).jobs
  let targetList := (cols.getD toCol dummyColumn).jobs
  match sourceList.findIdx? (fun j => j.ID = jobId) with
  | none => (cols, [])
  | some idxInSource =>
    let moved := sourceList.getD idxInSource dummyJob
    let sourceAfter := sourceList.eraseIdx idxInSource
    let newStatus := (cols.getD toCol dummyColumn).name
    let updated := { moved with Status := some newStatus }
    let toIndex := (min (max toIndexRaw 0) (targetList.length : Int)).toNat
    let targetAfter := targetList.insertIdx toIndex updated
    let cols1 := (cols.set fromCol
        { (cols.getD fromCol dummyColumn) with jobs := sourceAfter }).set toCol
      { ((cols.set fromCol
          { (cols.getD fromCol dummyColumn) with jobs := sourceAfter }).getD
            toCol dummyColumn) with jobs := targetAfter }
    if truthyRow moved._row then
      (cols1, updateStatusInSheets updated newStatus)
    else
      (upsertLocalJob cols1 updated, [])

/-- Every id on the board, in column-then-position order. -/
def allIds (cols : List Column) : List (Option String) :=
  ((cols.map Column.jobs).flatten).map Job.ID

/-- Invariants I1 and I3: no id occurs twice anywhere on the board (hence
every id held by some record lives in exactly one column, exactly once). -/
def uniquePartition (cols : List Column) : Prop := (allIds cols).Nodup

/-- Invariant I2: every record's status equals the name of its column. -/
def statusMatches (cols : List Column) : Prop :=
  ∀ c ∈ cols, ∀ j ∈ c.jobs, j.Status = some c.name

/-- The I1–I3 board invariants of the specification. -/
def boardInv (cols : List Column) : Prop :=
  uniquePartition cols ∧ statusMatches cols

instance (cols : List Column) : Decidable (uniquePartition cols) := by
  unfold uniquePartition; infer_instance

instance (cols : List Column) : Decidable (statusMatches cols) := by
  unfold statusMatches; infer_instance

instance (cols : List Column) : Decidable (boardInv cols) := by
  unfold boardInv; infer_instance

/-- A sheet-backed record sitting in `INTERVIEW`, used to exercise the
self-move corners. -/
def selfJob : Job :=
  { ID := some "j1", Title := some "T", Status := some "INTERVIEW", _row := some 2 }

/-- A one-record board used to exercise the self-move corner: the record sits
in `INTERVIEW` while the focus column is `NEW`. -/
def selfMovePre : List Column :=
  [⟨"NEW", []⟩, ⟨"CV SENT", []⟩, ⟨"FOLLOWED UP", []⟩, ⟨"INTERVIEW", [selfJob]⟩,
   ⟨"REFUSAL", []⟩, ⟨"OFFER", []⟩, ⟨"ARCHIVE", []⟩]

/-- Header canonicalisation of `loadJobs`: `"tag"` and `"interview date"`
(case-insensitively) map to the stable keys, every other header is used
as-is (already trimmed). -/
def canonicalKey (h : String) : String :=
  let l := jsLower h
  if l = "tag" then "Tag"
  else if l = "interview date" then "Interview Date"
  else h

/-- The dynamic `obj[key] = value` assignment of the ingestion row builder.
Only the keys that the `Job` type (and hence the rest of the component) ever
reads back are observable; an assignment under any other key lands on the
row object but no code reads it, so it is dropped. -/
def setField (j : Job) (key v : String) : Job :=
  if key = "ID" then { j with ID := some v }
  else if key = "Title" then { j with Title := some v }
  else if key = "Description" then { j with Description := some v }
  else if key = "Company" then { j with Company := some v }
  else if key = "Location" then { j with Location := some v }
  else if key = "Link" then { j with Link := some v }
  else if key = "Date" then { j with Date := some v }
  else if key = "Status" then { j with Status := some v }
  else if key = "Notes" then { j with Notes := some v }
  else if key = "Interview Date" then { j with interviewDate := some v }
  else if key = "Contacts" then { j with Contacts := some v }
  else if key = "Tag" then { j with Tag := some v }
  else j

/-- One data row of the payload becomes one job: each header assigns the
matching cell (`row[j] ?? ''`), and `_row` is the row position plus 2 (one
for the header row, one for 1-based sheet indexing). -/
def rowToJob (headers : List String) (row : List String) (i : Nat) : Job :=
  { headers.enum.foldl
      (fun acc p => setField acc (canonicalKey p.2) (row.getD p.1 ""))
      dummyJob with
    _row := some (i + 2) }

/-- The success path of `loadJobs` on a fetched `values` payload: trim the
headers and strip a leading BOM, build one job per data row, and partition
the jobs into the seven columns by case-insensitive status match. A record
whose status is falsy or matches no column name lands in no column. An
absent or empty payload resets the board to the empty columns. -/
def loadJobs (values : List (List String)) : List Column :=
  match values with
  | [] => initialColumns
  | rawHeaders :: rows =>
    let headers := rawHeaders.map fun s => jsTrim (stripBom s)
    let jobs := rows.enum.map fun p => rowToJob headers p.2 p.1
    COLUMN_NAMES.map fun name =>
      ⟨name, jobs.filter fun j =>
        truthyStr j.Status && (jsUpper (j.Status.getD "") = jsUpper name)⟩

/-- The payload of the end-to-end scenario. -/
def e2ePayload : List (List String) :=
  [["Title", "Status"], ["Backend Dev", "NEW"], ["Data Eng", "INTERVIEW"]]

/-- The Backend Dev record as ingestion produces it: only `Title` and
`Status` were provided by the headers, and the sheet row is 2. -/
def backendDev : Job :=
  { Title := some "Backend Dev", Status := some "NEW", _row := some 2 }

/-- The Data Eng record produced by ingestion, on sheet row 3. -/
def dataEng : Job :=
  { Title := some "Data Eng", Status := some "INTERVIEW", _row := some 3 }

/-- Digit run to number, most significant first. -/
def natOfDigits (l : List Char) : Nat :=
  l.foldl (fun n c => 10 * n + (c.toNat - '0'.toNat)) 0

/-- The separators accepted by the date regular expression. -/
def isSep (c : Char) : Bool := c = '.' ∨ c = '-' ∨ c = '/'

/-- The date regular expression of `dateToTs` — two capture groups of one or
two digits and one of four digits, separated by a dot, hyphen or slash,
anchored at both ends — as day/month/year capture groups. Because the
separators are not digits, a whole-string regex match forces each digit
group to be the maximal digit run at its position, which is what the scans
below take. -/
def parseDMY (s : String) : Option (Nat × Nat × Nat) :=
  let cs := s.data
  let d1 := cs.takeWhile Char.isDigit
  match cs.dropWhile Char.isDigit with
  | [] => none
  | c1 :: r2 =>
    if (d1.length = 1 ∨ d1.length = 2) ∧ isSep c1 = true then
      let d2 := r2.takeWhile Char.isDigit
      match r2.dropWhile Char.isDigit with
      | [] => none
      | c2 :: r4 =>
        if (d2.length = 1 ∨ d2.length = 2) ∧ isSep c2 = true then
          let d3 := r4.takeWhile Char.isDigit
          if d3.length = 4 ∧ r4.dropWhile Char.isDigit = [] then
            some (natOfDigits d1, natOfDigits d2, natOfDigits d3)
          else none
        else none
    else none

/-- Days between the proleptic-Gregorian civil date `y-m-d` (with
`m ∈ [1,12]`) and the Unix epoch, by the standard era decomposition. -/
def daysFromCivil (y : Int) (m : Nat) (d : Int) : Int :=
  let y2 := if m ≤ 2 then y - 1 else y
  let era := y2.fdiv 400
  let yoe := y2 - era * 400
  let mp : Int := ((m : Int) + 9) % 12
  let doy := (153 * mp + 2).fdiv 5 + d - 1
  let doe := yoe * 365 + yoe.fdiv 4 - yoe.fdiv 100 + doy
  era * 146097 + doe - 719468

/-- `new Date(y, monthIndex, day).getTime()` for the numeric arguments the
date parser can produce. Month overflow rolls into adjacent years and a
two-digit year gets 1900 added, as ECMAScript `MakeDay` prescribes; the
constructor interprets the date at local midnight, and the embedding fixes
the timezone offset at zero (offsets shift every produced timestamp by the
same bounded amount and no claim depends on absolute values). The result is
always a finite number here — `NaN` arises only from a failed regex match,
which `dateToTs` signals with `none`. -/
def jsDateMs (y : Nat) (moIdx : Int) (d : Nat) : Int :=
  let yFull : Int := if y ≤ 99 then (y : Int) + 1900 else (y : Int)
  let ym := yFull * 12 + moIdx
  let yy := ym.fdiv 12
  let mm := (ym.emod 12).toNat
  (daysFromCivil yy (mm + 1) 1 + ((d : Int) - 1)) * 86400000

/-- `dateToTs(s)`: `NaN` (here `none`) for a falsy input or a failed match,
otherwise the timestamp of `new Date(y, m - 1, d)`. -/
def dateToTs (s : Option String) : Option Int :=
  match s with
  | none => none
  | some str =>
    if str = "" then none
    else
      match parseDMY (jsTrim str) with
      | none => none
      | some (d, mo, y) => some (jsDateMs y ((mo : Int) - 1) d)

/-- The active sort directions (`'asc' | 'desc'`). -/
inductive SortDir where
  | asc
  | desc
deriving DecidableEq, Repr

/-- The comparator `byDate(order)`: both dates unparsable compares equal,
an unparsable date sorts after any parsable one in either direction, and two
parsable dates compare by timestamp difference in the requested direction. -/
def byDate (order : SortDir) (a b : Job) : Int :=
  match dateToTs a.Date, dateToTs b.Date with
  | none, none => 0
  | none, some _ => 1
  | some _, none => -1
  | some ta, some tb =>
    match order with
    | SortDir.asc => ta - tb
    | SortDir.desc => tb - ta

/-- Insert one element into an already-sorted list, before the first element
it compares `≤ 0` against. -/
def sortInsert (le : Job → Job → Bool) (a : Job) : List Job → List Job
  | [] => [a]
  | b :: l => if le a b then a :: b :: l else b :: sortInsert le a l

/-- Stable insertion sort. -/
def stableSort (le : Job → Job → Bool) : List Job → List Job
  | [] => []
  | a :: l => sortInsert le a (stableSort le l)

/-- `[...filtered].sort(byDate(order))`. ECMAScript requires
`Array.prototype.sort` to be stable, and the comparator `byDate` is a
consistent comparator (it induces a total preorder), so the sorted result is
uniquely determined; insertion sort keyed on `byDate ≤ 0`, with the earlier
element inserted last, computes exactly that stable result. -/
def sortJobs (order : SortDir) (l : List Job) : List Job :=
  stableSort (fun a b => decide (byDate order a b ≤ 0)) l

/-- The view preferences the projection consumes: the search query and the
per-column date-sort state (`Option.none` models the `'none'` sort mode). -/
structure ViewState where
  query : String
  sortByDate : String → Option SortDir

/-- One record matches the query when any of the six searched fields
contains it case-insensitively. -/
def matchesQuery (t : String) (j : Job) : Bool :=
  [j.Title, j.Company, j.Location, j.Description, j.Link, j.Tag].any
    fun x => jsIncludes (jsLower (x.getD "")) t

/-- `applyFilter` of `filteredColumns`: the identity for an empty (trimmed)
query, otherwise keep the matching records. -/
def applyFilter (t : String) (jobs : List Job) : List Job :=
  if t = "" then jobs else jobs.filter (matchesQuery t)

/-- The `filteredColumns` projection: per column, filter by the trimmed
lower-cased query, then — only when that column's sort mode is active — sort
a copy of the filtered list by date. -/
def project (cols : List Column) (v : ViewState) : List Column :=
  let t := jsLower (jsTrim v.query)
  cols.map fun c =>
    let filtered := applyFilter t c.jobs
    match v.sortByDate c.name with
    | Option.none => { c with jobs := filtered }
    | some ord => { c with jobs := sortJobs ord filtered }

/-- Rendering one projection step: `filteredColumns` is a `useMemo`-derived
view of the canonical `columns` state and performs no `setColumns`, so the
canonical state (first component) passes through untouched while the
projected view (second component) is derived from it. -/
def projectStep (cols : List Column) (v : ViewState) : List Column × List Column :=
  (cols, project cols v)

/-- A job whose `Date` the tolerant parser rejects. -/
def unparsableDate (j : Job) : Bool := (dateToTs j.Date).isNone

/-- Jobs exercising the unparsable-vs-parsable ordering. -/
def jBadDate : Job := { ID := some "b1", Date := some "soon" }

/-- A second unparsable-date job, to watch relative order. -/
def jBadDate2 : Job := { ID := some "b2", Date := some "31.02" }

/-- A parsable-date job. -/
def jGoodDate : Job := { ID := some "g", Date := some "5.3.2024" }

/-- JS `\w`: ASCII letters, digits and underscore. -/
def isWordChar (c : Char) : Bool := c.isAlphanum || c = '_'

/-- `replace(/[^\w]+/g, '-')`: each maximal run of non-word characters
becomes a single hyphen (`inRun` records whether the scan is inside such a
run). -/
def replaceRunsAux : Bool → List Char → List Char
  | _, [] => []
  | inRun, c :: cs =>
    if isWordChar c then c :: replaceRunsAux false cs
    else if inRun then replaceRunsAux true cs
    else '-' :: replaceRunsAux true cs

/-- The second `replace` of `normalize`: collapse every run of hyphens to a
single hyphen. -/
def collapseAux : Bool → List Char → List Char
  | _, [] => []
  | prevHyphen, c :: cs =>
    if c = '-' then
      if prevHyphen then collapseAux true cs else '-' :: collapseAux true cs
    else c :: collapseAux false cs

/-- `replace(/^-|-$/g, '')`: drop one leading and one trailing hyphen. -/
def trimEdgeHyphens (l : List Char) : List Char :=
  let l1 := match l with
    | '-' :: rest => rest
    | _ => l
  match l1.getLast? with
  | some '-' => l1.dropLast
  | _ => l1

/-- `String.prototype.normalize('NFKD')`. Compatibility decomposition is the
identity on ASCII text, which is the only text the identity-scheme claims
exercise; the embedding models that ASCII fragment (the full Unicode
decomposition tables are out of scope of the board logic). -/
def nfkd (s : String) : String := s

/-- `Array.prototype.join(sep)`. -/
def joinSep (sep : String) : List String → String
  | [] => ""
  | [x] => x
  | x :: xs => x ++ sep ++ joinSep sep xs

/-- The `normalize` helper of `NewJobModal`: coalesce `undefined` to the
empty string, lower-case, apply NFKD, turn every non-word run into a single
hyphen, collapse hyphen runs, and trim one hyphen from each edge. -/
def normalize (s : Option String) : String :=
  ⟨trimEdgeHyphens (collapseAux false
    (replaceRunsAux false (nfkd (jsLower (s.getD ""))).data))⟩

/-- `makeSelfId(title, company, location)`: normalise the three parts, drop
the empty ones, join the rest with `--` in title–company–location order,
fall back to `untitled` when the join is empty, and prefix `self-`. -/
def makeSelfId (title company location : Option String) : String :=
  let parts := [normalize title, normalize company, normalize location].filter
    fun p => p ≠ ""
  let joined := joinSep "--" parts
  "self-" ++ (if joined = "" then "untitled" else joined)

/-- `goNext`: `min(i + 1, max(length - 1, 0))` over the projected focus
list. -/
def goNext (len : Nat) (i : Int) : Int := min (i + 1) (max ((len : Int) - 1) 0)

/-- `goPrev`: `max(i - 1, 0)`. -/
def goPrev (i : Int) : Int := max (i - 1) 0

/-- The re-clamp effect that runs whenever the projected focus list changes
length: `min(i, max(length - 1, 0))`. -/
def clampFocusIndex (len : Nat) (i : Int) : Int :=
  min i (max ((len : Int) - 1) 0)

/-- The cursor invariant: `0 ≤ index < length`, or `index = 0` on an empty
list. -/
def cursorInv (len : Nat) (i : Int) : Prop :=
  (0 ≤ i ∧ i < (len : Int)) ∨ (len = 0 ∧ i = 0)

/-- The effective start index of `Array.prototype.splice(start, ...)`: a
negative start counts from the end (floored at 0), a positive one is capped
at the length. -/
def jsSpliceStart (len : Nat) (i : Int) : Nat :=
  if i < 0 then ((len : Int) + i).toNat else min i.toNat len

/-- A column as the JS runtime holds it during `moveWithinColumn`: each array
slot carries a job or — after a `splice` that removed nothing made `moved`
come out `undefined` and get re-inserted — the `undefined` value, modelled
as `none`. -/
structure ColumnJs where
  name : String
  jobs : List (Option Job)
deriving DecidableEq, Repr

/-- Placeholder for out-of-range column reads. -/
def dummyColumnJs : ColumnJs := { name := "", jobs := [] }

/-- The array body of `moveWithinColumn`: `list.splice(fromIdx, 1)` takes
`moved` out (or yields `undefined` when the start clamps to the length and
nothing is removed), then `list.splice(toIdx, 0, moved)` re-inserts that
value at the clamped position. -/
def reorderJs (l : List (Option Job)) (fromIdx toIdx : Int) : List (Option Job) :=
  let s := jsSpliceStart l.length fromIdx
  let moved := l.getD s none
  let rest := if s < l.length then l.eraseIdx s else l
  let t := jsSpliceStart rest.length toIdx
  rest.insertIdx t moved

/-- `moveWithinColumn(colIndex, fromIdx, toIdx)`: early return when the two
indices coincide, otherwise rebuild only column `colIndex` through the two
splices. No request of any kind is dispatched. -/
def moveWithinColumn (cols : List ColumnJs) (colIndex : Nat)
    (fromIdx toIdx : Int) : List ColumnJs × List Effect :=
  if fromIdx = toIdx then (cols, [])
  else
    let c := cols.getD colIndex dummyColumnJs
    (cols.set colIndex { c with jobs := reorderJs c.jobs fromIdx toIdx }, [])

/-- A one-column board for the reorder witness. -/
def reorderDemo : List ColumnJs := [⟨"NEW", [some selfJob]⟩]

/-- A predicate fails everywhere on a list exactly when `findIdx?` finds
nothing. -/
theorem findIdx?_eq_none_of {α : Type} (p : α → Bool) :
    ∀ l : List α, (∀ x ∈ l, p x = false) → l.findIdx? p = none := by
  intro l
  induction l with
  | nil => intro _; rfl
  | cons a t ih =>
      intro h
      have ha := h a (List.mem_cons_self a t)
      have ht : ∀ x ∈ t, p x = false := fun x hx => h x (List.mem_cons_of_mem a hx)
      simp [List.findIdx?, ha]
      have := ih ht
      simpa [List.findIdx?] using this

/-- C10: an upsert whose status names no column is an atomic no-op: the whole
board — including any records that share the incoming id — is returned
unchanged, because the updater returns `prev` rather than the pruned copy. -/
theorem c10_upsert_unplaceable_noop
    (cols : List Column) (job : Job) (s : String)
    (hst : job.Status = some s) (hne : s ≠ "")
    (hnames : cols.map Column.name = COLUMN_NAMES)
    (hnot : s ∉ COLUMN_NAMES) :
    upsertLocalJob cols job = cols := by
  unfold upsertLocalJob
  have hkey : (match job.Status with
      | some s => if s = "" then "NEW" else s
      | none => "NEW") = s := by
    rw [hst]; simp [hne]
  rw [hkey]
  have hnone :
      (cols.map fun c => { c with jobs := c.jobs.filter fun j => j.ID ≠ job.ID } :
        List Column).findIdx? (fun c => c.name = s) = none := by
    apply findIdx?_eq_none_of
    intro x hx
    rcases List.mem_map.mp hx with ⟨c, hc, hcx⟩
    have hxname : x.name = c.name := by rw [← hcx]
    have hcname : c.name ∈ COLUMN_NAMES := by
      rw [← hnames]; exact List.mem_map_of_mem Column.name hc
    have : x.name ≠ s := by
      rw [hxname]; intro h; exact hnot (h ▸ hcname)
    simp [this]
  simp only [hnone]

/-- C10 witness: a record whose status is `"LIMBO"` on the pristine board. -/
theorem c10_upsert_unplaceable_noop_witness :
    upsertLocalJob initialColumns { ID := some "x", Status := some "LIMBO" } =
      initialColumns :=
  c10_upsert_unplaceable_noop initialColumns
    { ID := some "x", Status := some "LIMBO" } "LIMBO" rfl (by decide)
    (by decide) (by decide)

/-- C1 counterexample: with focus on `NEW`, moving the `INTERVIEW` record to
`INTERVIEW` — its own current column — is not a no-op. The guard compares the
target against the focus column, not against the record's column, so the
updater runs, reads the destination list from the pre-removal snapshot, and
leaves the record twice in `INTERVIEW`. -/
theorem c1_self_move_not_noop :
    (moveJobToStatus selfMovePre "NEW" (some "j1") "INTERVIEW").1 ≠ selfMovePre := by
  decide

/-- C1 amended: `moveToColumn(id, target)` is a no-op — board unchanged, no
request dispatched — exactly when the target equals the current focus column,
which is the condition the code checks (and the condition that disables the
quick-action button). The record's own column is never consulted. -/
theorem c1_amended_noop_on_focus_column
    (cols : List Column) (focusColumn : String) (jobId : Option String)
    (targetStatus : String) (h : targetStatus = focusColumn) :
    moveJobToStatus cols focusColumn jobId targetStatus = (cols, []) := by
  unfold moveJobToStatus
  simp [h]

/-- C1 amended, witness: a concrete no-op move onto the focus column. -/
theorem c1_amended_noop_on_focus_column_witness :
    moveJobToStatus selfMovePre "INTERVIEW" (some "j1") "INTERVIEW" =
      (selfMovePre, []) :=
  c1_amended_noop_on_focus_column selfMovePre "INTERVIEW" (some "j1")
    "INTERVIEW" rfl

/-- C2: the partition invariant is the specification's intent (I1–I3 "must
hold after every operation", and `upsertLocalJob`'s own comment removes the
id from every column precisely "so it does not duplicate"), but the code
breaks it: starting from a board satisfying I1–I3, a single
`moveToColumn("j1", "INTERVIEW")` issued while the focus column is `NEW`
leaves two records with id `"j1"` in `INTERVIEW`. -/
theorem c2_partition_invariant_broken :
    boardInv selfMovePre ∧
      ¬ boardInv (moveJobToStatus selfMovePre "NEW" (some "j1") "INTERVIEW").1 := by
  constructor
  · constructor
    · decide
    · decide
  · intro h
    have := h.1
    revert this
    decide

/-- C3, end-to-end: ingesting the payload puts exactly Backend Dev (row 2)
in `NEW` and exactly Data Eng (row 3) in `INTERVIEW`; a subsequent
`moveToColumn` of the Backend Dev record to `CV SENT` (issued from the
default focus column `NEW`) empties `NEW`, places the record with status
`CV SENT` in `CV SENT`, and dispatches exactly one remote `setStatus`
request for row 2 with status `CV SENT`. -/
theorem c3_end_to_end :
    loadJobs e2ePayload =
      [⟨"NEW", [backendDev]⟩, ⟨"CV SENT", []⟩, ⟨"FOLLOWED UP", []⟩,
       ⟨"INTERVIEW", [dataEng]⟩, ⟨"REFUSAL", []⟩, ⟨"OFFER", []⟩,
       ⟨"ARCHIVE", []⟩] ∧
    moveJobToStatus (loadJobs e2ePayload) "NEW" backendDev.ID "CV SENT" =
      ([⟨"NEW", []⟩, ⟨"CV SENT", [{ backendDev with Status := some "CV SENT" }]⟩,
        ⟨"FOLLOWED UP", []⟩, ⟨"INTERVIEW", [dataEng]⟩, ⟨"REFUSAL", []⟩,
        ⟨"OFFER", []⟩, ⟨"ARCHIVE", []⟩],
       [Effect.setStatus 2 "CV SENT"]) := by
  constructor
  · decide
  · decide

/-- Reading the index just written by `set` yields the written value. -/
theorem getD_set_self {α : Type} :
    ∀ (l : List α) (i : Nat) (a d : α), i < l.length → (l.set i a).getD i d = a := by
  intro l
  induction l with
  | nil => intro i a d h; exact absurd h (by simp)
  | cons x t ih =>
      intro i a d h
      cases i with
      | zero => rfl
      | succ n => exact ih n a d (by simpa using h)

/-- `set` at one index leaves every other index unchanged. -/
theorem getD_set_ne {α : Type} :
    ∀ (l : List α) (i j : Nat) (a d : α), i ≠ j → (l.set i a).getD j d = l.getD j d := by
  intro l
  induction l with
  | nil => intro i j a d _; cases i <;> rfl
  | cons x t ih =>
      intro i j a d hij
      cases i with
      | zero =>
          cases j with
          | zero => exact absurd rfl hij
          | succ m => rfl
      | succ n =>
          cases j with
          | zero => rfl
          | succ m => exact ih n m a d (fun h => hij (by rw [h]))

/-- C4 counterexample: a drag whose source and destination are the same
column. The claim entails that the record is removed and re-inserted once,
leaving the column `[selfJob]`; the code writes the source column first and
the (pre-removal) destination copy second, so the record ends up twice. -/
theorem c4_same_column_duplicates :
    ((moveBetweenColumns selfMovePre 3 3 0 (some "j1")).1.getD 3 dummyColumn).jobs
        = [selfJob, selfJob] ∧
      ((moveBetweenColumns selfMovePre 3 3 0 (some "j1")).1.getD 3 dummyColumn).jobs
        ≠ [selfJob] := by
  constructor
  · decide
  · decide

/-- C4 amended: for a drag between two distinct columns whose source holds
the record, the operation's own state update removes the record from the
source column, stamps the destination column's name as its status, and
inserts it at `min(max(targetIndex, 0), |destination|)`; on top of that
state, a remote status-sync request for the record's sheet row is dispatched
exactly when the record has a remote row index, and otherwise the local
upsert cycle of the updated record runs instead (re-placing it at the front
of its status column) with nothing dispatched. -/
theorem c4_amended_move_across
    (cols : List Column) (fromCol toCol : Nat) (toIndexRaw : Int)
    (jobId : Option String) (idx : Nat) (moved : Job)
    (hne : fromCol ≠ toCol) (hfrom : fromCol < cols.length)
    (hto : toCol < cols.length)
    (hfind : (cols.getD fromCol dummyColumn).jobs.findIdx?
        (fun j => j.ID = jobId) = some idx)
    (hmoved : (cols.getD fromCol dummyColumn).jobs.getD idx dummyJob = moved)
    (hrow : moved._row ≠ some 0) :
    let src := (cols.getD fromCol dummyColumn).jobs
    let tgt := (cols.getD toCol dummyColumn).jobs
    let toName := (cols.getD toCol dummyColumn).name
    let updated : Job := { moved with Status := some toName }
    let pos := (min (max toIndexRaw 0) (tgt.length : Int)).toNat
    let cols1 := (cols.set fromCol
        { cols.getD fromCol dummyColumn with jobs := src.eraseIdx idx }).set toCol
      { cols.getD toCol dummyColumn with jobs := tgt.insertIdx pos updated }
    let out := moveBetweenColumns cols fromCol toCol toIndexRaw jobId
    (cols1.getD fromCol dummyColumn).jobs = src.eraseIdx idx ∧
      (cols1.getD toCol dummyColumn).jobs = tgt.insertIdx pos updated ∧
      (moved._row.isSome = true →
        out = (cols1, [Effect.setStatus (moved._row.getD 0) toName])) ∧
      (moved._row = none → out = (upsertLocalJob cols1 updated, [])) ∧
      (out.2 ≠ [] ↔ moved._row.isSome = true) := by
  intro src tgt toName updated pos cols1 out
  have hlen : (cols.set fromCol
      { cols.getD fromCol dummyColumn with jobs := src.eraseIdx idx }).length
      = cols.length := by simp
  have h1 : (cols1.getD fromCol dummyColumn).jobs = src.eraseIdx idx := by
    show (((cols.set fromCol _).set toCol _).getD fromCol dummyColumn).jobs = _
    rw [getD_set_ne _ _ _ _ _ (fun h => hne h.symm),
      getD_set_self _ _ _ _ hfrom]
  have h2 : (cols1.getD toCol dummyColumn).jobs = tgt.insertIdx pos updated := by
    show (((cols.set fromCol _).set toCol _).getD toCol dummyColumn).jobs = _
    rw [getD_set_self _ _ _ _ (by rw [hlen]; exact hto)]
  have hout : out = if truthyRow moved._row then
      (cols1, updateStatusInSheets updated toName)
    else (upsertLocalJob cols1 updated, []) := by
    show moveBetweenColumns cols fromCol toCol toIndexRaw jobId = _
    unfold moveBetweenColumns
    simp only [hfind, hmoved]
    rw [getD_set_ne _ _ _ _ _ hne]
  refine ⟨h1, h2, ?_, ?_, ?_⟩
  · intro hsome
    rcases hr : moved._row with _ | r
    · rw [hr] at hsome; simp at hsome
    · have hrne : r ≠ 0 := by
        intro h0; exact hrow (by rw [hr, h0])
      rw [hout]
      have htr : truthyRow moved._row = true := by
        rw [hr]; simp [truthyRow, hrne]
      rw [htr]
      simp only [if_true]
      have : updateStatusInSheets updated toName = [Effect.setStatus (moved._row.getD 0) toName] := by
        unfold updateStatusInSheets
        have : updated._row = moved._row := rfl
        rw [this, htr, if_pos rfl]
      rw [this, hr]
  · intro hnone
    rw [hout]
    have htr : truthyRow moved._row = false := by rw [hnone]; rfl
    rw [htr]
    simp
  · rcases hr : moved._row with _ | r
    · have htr : truthyRow moved._row = false := by rw [hr]; rfl
      rw [hout, htr]
      simp
    · have hrne : r ≠ 0 := by
        intro h0; exact hrow (by rw [hr, h0])
      have htr : truthyRow moved._row = true := by
        rw [hr]; simp [truthyRow, hrne]
      rw [hout, htr]
      have : updateStatusInSheets updated toName = [Effect.setStatus (moved._row.getD 0) toName] := by
        unfold updateStatusInSheets
        have hup : updated._row = moved._row := rfl
        rw [hup, htr, if_pos rfl]
      simp [this, hr]

/-- C4 amended, witness: dragging the `INTERVIEW` record of `selfMovePre`
(source column 3) onto `NEW` (column 0) at raw index 5; the index clamps to
0 on the empty destination and the remote update for sheet row 2 fires. -/
theorem c4_amended_move_across_witness :
    ((moveBetweenColumns selfMovePre 3 0 5 (some "j1")).1.getD 0 dummyColumn).jobs
        = [{ selfJob with Status := some "NEW" }] ∧
      (moveBetweenColumns selfMovePre 3 0 5 (some "j1")).2
        = [Effect.setStatus 2 "NEW"] := by
  have h := c4_amended_move_across selfMovePre 3 0 5 (some "j1") 0 selfJob
    (by decide) (by decide) (by decide) (by decide) (by decide) (by decide)
  have hmain := h.2.2.1 (by decide)
  constructor
  · rw [hmain]
    decide
  · rw [hmain]
    decide

/-- C5: projecting with a non-empty query and then projecting the same —
untouched — underlying board with the empty query reproduces the board's
column contents and order exactly (the default view preferences keep every
sort mode off). The projection never mutates the canonical state: each
`projectStep` passes it through unchanged. -/
theorem c5_filter_roundtrip (state : List Column) (q : String) (hq : q ≠ "") :
    (projectStep (projectStep state ⟨q, fun _ => Option.none⟩).1
        ⟨"", fun _ => Option.none⟩).2 = state := by
  show project state ⟨"", fun _ => Option.none⟩ = state
  have hput : project state ⟨"", fun _ => Option.none⟩
      = List.map (fun c => { c with jobs := applyFilter "" c.jobs }) state := rfl
  rw [hput]
  have hfun : (fun c : Column => { c with jobs := applyFilter "" c.jobs })
      = fun c => c := by
    funext c
    unfold applyFilter
    simp
  rw [hfun]
  simp

/-- C5 witness: a concrete round trip over the one-record board. -/
theorem c5_filter_roundtrip_witness :
    (projectStep (projectStep selfMovePre ⟨"x", fun _ => Option.none⟩).1
        ⟨"", fun _ => Option.none⟩).2 = selfMovePre :=
  c5_filter_roundtrip selfMovePre "x" (by decide)

/-- The comparator never distinguishes directions on unparsable dates: with
an unparsable left date it returns 0 or 1, so `byDate ≤ 0` forces the right
date to be unparsable as well. -/
theorem byDate_le_of_unparsable (ord : SortDir) (a b : Job)
    (ha : dateToTs a.Date = none) (h : byDate ord a b ≤ 0) :
    dateToTs b.Date = none := by
  rcases hb : dateToTs b.Date with _ | tb
  · rfl
  · simp [byDate, ha, hb] at h

/-- Totality of the `byDate ≤ 0` relation. -/
theorem byDate_le_total (ord : SortDir) (a b : Job) :
    byDate ord a b ≤ 0 ∨ byDate ord b a ≤ 0 := by
  rcases ha : dateToTs a.Date with _ | ta <;> rcases hb : dateToTs b.Date with _ | tb <;>
    cases ord <;> simp [byDate, ha, hb] <;> omega

/-- Transitivity of the `byDate ≤ 0` relation. -/
theorem byDate_le_trans (ord : SortDir) (a b c : Job)
    (hab : byDate ord a b ≤ 0) (hbc : byDate ord b c ≤ 0) :
    byDate ord a c ≤ 0 := by
  rcases ha : dateToTs a.Date with _ | ta <;>
    rcases hb : dateToTs b.Date with _ | tb <;>
    rcases hc : dateToTs c.Date with _ | tc <;>
    cases ord <;>
    simp_all [byDate] <;> omega

/-- Membership through `sortInsert`. -/
theorem mem_sortInsert (le : Job → Job → Bool) (a x : Job) :
    ∀ s : List Job, x ∈ sortInsert le a s ↔ x = a ∨ x ∈ s := by
  intro s
  induction s with
  | nil => simp [sortInsert]
  | cons b t ih =>
      by_cases h : le a b
      · simp [sortInsert, h]
      · simp only [sortInsert, if_neg h, List.mem_cons, ih]
        tauto

/-- `sortInsert` preserves pairwise sortedness for the `byDate ≤ 0`
relation. -/
theorem pairwise_sortInsert (ord : SortDir) (a : Job) :
    ∀ s : List Job,
      s.Pairwise (fun x y => byDate ord x y ≤ 0) →
      (sortInsert (fun x y => decide (byDate ord x y ≤ 0)) a s).Pairwise
        (fun x y => byDate ord x y ≤ 0) := by
  intro s
  induction s with
  | nil => intro _; simp [sortInsert]
  | cons b t ih =>
      intro h
      rcases List.pairwise_cons.mp h with ⟨hb, ht⟩
      by_cases hab : byDate ord a b ≤ 0
      · rw [sortInsert, if_pos (decide_eq_true hab)]
        refine List.pairwise_cons.mpr ⟨?_, h⟩
        intro z hz
        rcases List.mem_cons.mp hz with hz | hz
        · rw [hz]; exact hab
        · exact byDate_le_trans ord a b z hab (hb z hz)
      · rw [sortInsert, if_neg (by simpa using hab)]
        refine List.pairwise_cons.mpr ⟨?_, ih ht⟩
        intro z hz
        rcases (mem_sortInsert _ a z t).mp hz with hz | hz
        · rw [hz]
          rcases byDate_le_total ord a b with h1 | h1
          · exact absurd h1 hab
          · exact h1
        · exact hb z hz

/-- The stable sort is pairwise sorted for `byDate ≤ 0`. -/
theorem pairwise_stableSort (ord : SortDir) :
    ∀ l : List Job,
      (stableSort (fun x y => decide (byDate ord x y ≤ 0)) l).Pairwise
        (fun x y => byDate ord x y ≤ 0) := by
  intro l
  induction l with
  | nil => simp [stableSort]
  | cons a t ih => exact pairwise_sortInsert ord a _ ih

/-- Inserting an unparsable-date element puts it in front of exactly the
unparsable suffix: the parsable elements it walks past are dropped by the
filter, so on the unparsable records it lands first. -/
theorem filter_sortInsert_unparsable (ord : SortDir) (a : Job)
    (ha : unparsableDate a = true) :
    ∀ s : List Job,
      (sortInsert (fun x y => decide (byDate ord x y ≤ 0)) a s).filter
          unparsableDate
        = a :: s.filter unparsableDate := by
  intro s
  have haDate : dateToTs a.Date = none := by
    unfold unparsableDate at ha
    exact Option.isNone_iff_eq_none.mp ha
  induction s with
  | nil => simp [sortInsert, List.filter, ha]
  | cons b t ih =>
      by_cases hab : byDate ord a b ≤ 0
      · rw [sortInsert, if_pos (decide_eq_true hab)]
        simp [List.filter, ha]
      · rw [sortInsert, if_neg (by simpa using hab)]
        have hbGood : unparsableDate b = false := by
          rcases hbd : dateToTs b.Date with _ | tb
          · exact absurd (by rw [byDate, haDate, hbd]) hab
          · unfold unparsableDate
            rw [hbd]
            rfl
        simp only [List.filter, hbGood]
        exact ih

/-- Inserting a parsable-date element leaves the unparsable subsequence
untouched. -/
theorem filter_sortInsert_parsable (ord : SortDir) (a : Job)
    (ha : unparsableDate a = false) :
    ∀ s : List Job,
      (sortInsert (fun x y => decide (byDate ord x y ≤ 0)) a s).filter
          unparsableDate
        = s.filter unparsableDate := by
  intro s
  induction s with
  | nil => simp [sortInsert, List.filter, ha]
  | cons b t ih =>
      by_cases hab : byDate ord a b ≤ 0
      · rw [sortInsert, if_pos (decide_eq_true hab)]
        simp [List.filter, ha]
      · rw [sortInsert, if_neg (by simpa using hab)]
        simp only [List.filter]
        cases hb : unparsableDate b
        · exact ih
        · rw [ih]

/-- The stable sort preserves the unparsable-date subsequence in its
original order. -/
theorem filter_stableSort_unparsable (ord : SortDir) :
    ∀ l : List Job,
      (stableSort (fun x y => decide (byDate ord x y ≤ 0)) l).filter
          unparsableDate
        = l.filter unparsableDate := by
  intro l
  induction l with
  | nil => rfl
  | cons a t ih =>
      cases ha : unparsableDate a
      · rw [stableSort, filter_sortInsert_parsable ord a ha, ih]
        simp [List.filter, ha]
      · rw [stableSort, filter_sortInsert_unparsable ord a ha, ih]
        simp [List.filter, ha]

/-- C6: under an active date sort of either direction, the comparator sends
a record with an unparsable date after every record with a parsable date
(`byDate = 1` against it, `-1` the other way, irrespective of direction),
compares two unparsable dates as equal (`byDate = 0`), and the — stable —
sort keeps the unparsable records in their prior relative order and places
them after every parsable one: past any unparsable record of the sorted
output, only unparsable records follow. -/
theorem c6_unparsable_dates_sort_last (ord : SortDir) (l : List Job) :
    (∀ a b : Job, dateToTs a.Date = none → dateToTs b.Date ≠ none →
        byDate ord a b = 1 ∧ byDate ord b a = -1) ∧
    (∀ a b : Job, dateToTs a.Date = none → dateToTs b.Date = none →
        byDate ord a b = 0) ∧
    (sortJobs ord l).filter unparsableDate = l.filter unparsableDate ∧
    (∀ (l1 l2 : List Job) (a : Job), sortJobs ord l = l1 ++ a :: l2 →
        dateToTs a.Date = none → ∀ b ∈ l2, dateToTs b.Date = none) := by
  refine ⟨?_, ?_, ?_, ?_⟩
  · intro a b ha hb
    rcases hbd : dateToTs b.Date with _ | tb
    · exact absurd hbd hb
    · constructor
      · rw [byDate, ha, hbd]
      · rw [byDate, hbd, ha]
  · intro a b ha hb
    rw [byDate, ha, hb]
  · exact filter_stableSort_unparsable ord l
  · intro l1 l2 a hsplit ha b hb
    have hpw := pairwise_stableSort ord l
    rw [show stableSort (fun x y => decide (byDate ord x y ≤ 0)) l
          = sortJobs ord l from rfl, hsplit] at hpw
    have h2 := (List.pairwise_append.mp hpw).2.1
    rcases List.pairwise_cons.mp h2 with ⟨hrel, _⟩
    exact byDate_le_of_unparsable ord a b ha (hrel b hb)

/-- C6 witness: on `[bad₁, good, bad₂]`, the comparator values are as
claimed, the sort moves the parsable record first, and the two unparsable
records keep their prior relative order behind it. -/
theorem c6_unparsable_dates_sort_last_witness :
    byDate SortDir.asc jBadDate jGoodDate = 1 ∧
    byDate SortDir.desc jGoodDate jBadDate = -1 ∧
    byDate SortDir.asc jBadDate jBadDate2 = 0 ∧
    (sortJobs SortDir.asc [jBadDate, jGoodDate, jBadDate2]).filter unparsableDate
      = [jBadDate, jBadDate2] ∧
    dateToTs jBadDate2.Date = none := by
  have h := c6_unparsable_dates_sort_last SortDir.asc [jBadDate, jGoodDate, jBadDate2]
  have hd := c6_unparsable_dates_sort_last SortDir.desc
    [jBadDate, jGoodDate, jBadDate2]
  refine ⟨?_, ?_, ?_, ?_, ?_⟩
  · exact (h.1 jBadDate jGoodDate (by decide) (by decide)).1
  · exact (hd.1 jBadDate jGoodDate (by decide) (by decide)).2
  · exact h.2.1 jBadDate jBadDate2 (by decide) (by decide)
  · have := h.2.2.1
    rw [this]
    decide
  · exact h.2.2.2 [jGoodDate] [jBadDate2] jBadDate (by decide) (by decide)
      jBadDate2 (by decide)

/-- C7: the synthesized identifier is a pure function of the three parts
(the embedding is a function, so repeated invocations agree by definition),
and it behaves exactly as claimed: the reference input yields
`self-senior-backend-engineer--acme-co`; each part is lower-cased, non-word
runs become a single hyphen with edge hyphens trimmed; empty parts are
dropped before joining with `--` in title–company–location order; all-empty
parts yield the `untitled` token; and every result carries the `self-`
prefix. -/
theorem c7_identity_scheme :
    makeSelfId (some "Senior Backend Engineer") (some "Acme Co.") (some "")
        = "self-senior-backend-engineer--acme-co" ∧
      makeSelfId (some "") (some "") (some "") = "self-untitled" ∧
      makeSelfId none none none = "self-untitled" ∧
      makeSelfId (some "A") (some "") (some "B?!") = "self-a--b" ∧
      ∀ t c l : Option String, ∃ rest, makeSelfId t c l = "self-" ++ rest := by
  refine ⟨by decide, by decide, by decide, by decide, ?_⟩
  intro t c l
  exact ⟨_, rfl⟩

/-- C8: the focus cursor keeps `0 ≤ index < length` (or `0` on an empty
list): `next()` computes `min(index + 1, length - 1)` on a non-empty list
and is a no-op on an empty one, `prev()` computes `max(index - 1, 0)`, and
whenever the projected list's length changes the re-clamp restores the
invariant for the new length — in particular a cursor at index 2 re-clamps
to 1 when the 3-record list shrinks to 2, and to 0 when it empties. -/
theorem c8_focus_cursor_clamped :
    (∀ (len : Nat) (i : Int), cursorInv len i → cursorInv len (goNext len i)) ∧
    (∀ (len : Nat) (i : Int), cursorInv len i → len ≠ 0 →
        goNext len i = min (i + 1) ((len : Int) - 1)) ∧
    (∀ i : Int, cursorInv 0 i → goNext 0 i = i) ∧
    (∀ (len : Nat) (i : Int), cursorInv len i → cursorInv len (goPrev i)) ∧
    (∀ i : Int, goPrev i = max (i - 1) 0) ∧
    (∀ (len2 : Nat) (i : Int), 0 ≤ i → cursorInv len2 (clampFocusIndex len2 i)) ∧
    (∀ (len2 : Nat) (i : Int), 0 ≤ i → len2 ≠ 0 →
        clampFocusIndex len2 i = min i ((len2 : Int) - 1)) ∧
    clampFocusIndex 2 2 = 1 ∧ clampFocusIndex 0 2 = 0 := by
  refine ⟨?_, ?_, ?_, ?_, ?_, ?_, ?_, by decide, by decide⟩
  · intro len i h
    unfold cursorInv at h ⊢
    unfold goNext
    rcases h with ⟨h0, hlt⟩ | ⟨hl, hi⟩
    · left
      constructor
      · rcases le_total (i + 1) (max ((len : Int) - 1) 0) with hm | hm <;> omega
      · rcases le_total (i + 1) (max ((len : Int) - 1) 0) with hm | hm
        · rw [min_eq_left hm]; omega
        · rw [min_eq_right hm]; omega
    · right
      subst hl hi
      constructor
      · rfl
      · decide
  · intro len i h hne
    unfold goNext
    have : max ((len : Int) - 1) 0 = (len : Int) - 1 := by
      apply max_eq_left
      omega
    rw [this]
  · intro i h
    rcases h with ⟨_, hlt⟩ | ⟨_, hi⟩
    · omega
    · subst hi; decide
  · intro len i h
    unfold cursorInv at h ⊢
    unfold goPrev
    rcases h with ⟨h0, hlt⟩ | ⟨hl, hi⟩
    · left
      constructor
      · exact le_max_right _ _
      · rcases le_total (i - 1) 0 with hm | hm
        · rw [max_eq_right hm]; omega
        · rw [max_eq_left hm]; omega
    · right
      subst hl hi
      exact ⟨rfl, by decide⟩
  · intro i
    rfl
  · intro len2 i h0
    unfold cursorInv clampFocusIndex
    rcases Nat.eq_zero_or_pos len2 with hl | hl
    · right
      subst hl
      constructor
      · rfl
      · have : max ((0 : Int) - 1) 0 = 0 := by decide
        simp only [Nat.cast_zero, this]
        omega
    · left
      have hmax : max ((len2 : Int) - 1) 0 = (len2 : Int) - 1 := by
        apply max_eq_left
        omega
      rw [hmax]
      constructor
      · rcases le_total i ((len2 : Int) - 1) with hm | hm
        · rw [min_eq_left hm]; omega
        · rw [min_eq_right hm]; omega
      · rcases le_total i ((len2 : Int) - 1) with hm | hm
        · rw [min_eq_left hm]; omega
        · rw [min_eq_right hm]; omega
  · intro len2 i h0 hne
    unfold clampFocusIndex
    have : max ((len2 : Int) - 1) 0 = (len2 : Int) - 1 := by
      apply max_eq_left
      omega
    rw [this]

/-- C8 witness: advancing at the end of a 3-record list stays in range, and
the concrete shrink re-clamps from the claim's example. -/
theorem c8_focus_cursor_clamped_witness :
    cursorInv 3 (goNext 3 2) ∧ goNext 3 2 = min (2 + 1) ((3 : Int) - 1) ∧
      goNext 0 0 = 0 ∧ cursorInv 3 (goPrev 0) ∧
      cursorInv 2 (clampFocusIndex 2 2) ∧ clampFocusIndex 2 2 = 1 := by
  have h := c8_focus_cursor_clamped
  refine ⟨h.1 3 2 (by unfold cursorInv; omega),
    h.2.1 3 2 (by unfold cursorInv; omega) (by decide),
    h.2.2.1 0 (by unfold cursorInv; omega),
    h.2.2.2.1 3 0 (by unfold cursorInv; omega),
    h.2.2.2.2.2.1 2 2 (by omega),
    h.2.2.2.2.2.2.2.1⟩

/-- The splice start never exceeds the length. -/
theorem jsSpliceStart_le (len : Nat) (i : Int) : jsSpliceStart len i ≤ len := by
  unfold jsSpliceStart
  split
  · omega
  · exact Nat.min_le_right _ _

/-- Putting the element read at an in-range index back in front of the
remainder permutes the original list. -/
theorem getD_cons_eraseIdx_perm {α : Type} (d : α) :
    ∀ (l : List α) (s : Nat), s < l.length →
      ((l.getD s d) :: l.eraseIdx s).Perm l := by
  intro l
  induction l with
  | nil => intro s h; exact absurd h (by simp)
  | cons x t ih =>
      intro s h
      cases s with
      | zero => exact List.Perm.refl _
      | succ n =>
          have hn : n < t.length := by simpa using h
          have h1 : ((x :: t).getD (n + 1) d) :: (x :: t).eraseIdx (n + 1)
              = t.getD n d :: x :: t.eraseIdx n := rfl
          rw [h1]
          exact List.Perm.trans
            (List.Perm.swap x (t.getD n d) (t.eraseIdx n))
            (List.Perm.cons x (ih n hn))

/-- The records (the non-`undefined` slots) of a column are a permutation of
the originals after the reorder splices: removal and re-insertion move one
slot value, and an out-of-range removal inserts only `undefined`. -/
theorem filterMap_reorderJs_perm (l : List (Option Job)) (fromIdx toIdx : Int) :
    ((reorderJs l fromIdx toIdx).filterMap id).Perm (l.filterMap id) := by
  unfold reorderJs
  set s := jsSpliceStart l.length fromIdx with hs
  by_cases hlt : s < l.length
  · simp only [if_pos hlt]
    have hins : ((l.eraseIdx s).insertIdx (jsSpliceStart (l.eraseIdx s).length toIdx)
        (l.getD s none)).Perm ((l.getD s none) :: l.eraseIdx s) := by
      apply List.perm_insertIdx
      exact jsSpliceStart_le _ _
    have hback := getD_cons_eraseIdx_perm (none : Option Job) l s hlt
    exact (hins.filterMap id).trans (hback.filterMap id)
  · simp only [if_neg hlt]
    have hmoved : l.getD s none = none := by
      unfold List.getD
      have : l.get? s = none := by
        apply List.get?_eq_none.mpr
        omega
      rw [this]
      rfl
    rw [hmoved]
    have hins : (l.insertIdx (jsSpliceStart l.length toIdx) (none : Option Job)).Perm
        ((none : Option Job) :: l) := by
      apply List.perm_insertIdx
      exact jsSpliceStart_le _ _
    have := hins.filterMap (id : Option Job → Option Job)
    simpa using this

/-- C9: for every column and every pair of raw drag indices,
`reorderWithinColumn` is a pure positional move. The board keeps its column
count, every column other than the reordered one is untouched, the reordered
column keeps its name and — as a multiset — exactly its previous records
(each record value, status field included, survives unchanged; at worst an
out-of-range source index inserts one `undefined` slot, never a record), and
no remote request of any kind is dispatched. -/
theorem c9_reorder_is_pure_positional_move
    (cols : List ColumnJs) (colIndex : Nat) (fromIdx toIdx : Int)
    (h : colIndex < cols.length) :
    (moveWithinColumn cols colIndex fromIdx toIdx).1.length = cols.length ∧
    (∀ k, k ≠ colIndex →
      (moveWithinColumn cols colIndex fromIdx toIdx).1.getD k dummyColumnJs
        = cols.getD k dummyColumnJs) ∧
    ((moveWithinColumn cols colIndex fromIdx toIdx).1.getD colIndex
        dummyColumnJs).name = (cols.getD colIndex dummyColumnJs).name ∧
    (((moveWithinColumn cols colIndex fromIdx toIdx).1.getD colIndex
        dummyColumnJs).jobs.filterMap id).Perm
      ((cols.getD colIndex dummyColumnJs).jobs.filterMap id) ∧
    (moveWithinColumn cols colIndex fromIdx toIdx).2 = [] := by
  by_cases heq : fromIdx = toIdx
  · unfold moveWithinColumn
    rw [if_pos heq]
    exact ⟨rfl, fun k _ => rfl, rfl, List.Perm.refl _, rfl⟩
  · unfold moveWithinColumn
    rw [if_neg heq]
    refine ⟨by simp, ?_, ?_, ?_, rfl⟩
    · intro k hk
      exact getD_set_ne _ _ _ _ _ (fun hx => hk hx.symm)
    · rw [getD_set_self _ _ _ _ h]
    · rw [getD_set_self _ _ _ _ h]
      exact filterMap_reorderJs_perm _ fromIdx toIdx

/-- C9 witness: an out-of-range drag (`fromIdx = 5`) on a one-record column
still preserves the records and dispatches nothing. -/
theorem c9_reorder_is_pure_positional_move_witness :
    (moveWithinColumn reorderDemo 0 5 0).1.length = 1 ∧
      (((moveWithinColumn reorderDemo 0 5 0).1.getD 0 dummyColumnJs).jobs.filterMap
          id).Perm [selfJob] ∧
      (moveWithinColumn reorderDemo 0 5 0).2 = [] := by
  have h := c9_reorder_is_pure_positional_move reorderDemo 0 5 0 (by decide)
  exact ⟨h.1, h.2.2.2.1, h.2.2.2.2⟩

end JobParser
